import Mathlib

/-!
Formal model of the sentence-segmented streaming TTS pipeline implemented in
`custom_components/microsoft` (files `tts.py` and `const.py`), as a shallow
embedding.  Text is modelled as `List Char` wherever character-level scanning
matters, Python floats as exact rationals, and all network I/O as explicit
oracles supplied to the functions that perform requests.
-/

namespace MsTts

/-! ### Character classes of the `SENTENCE_ENDINGS` regular expression

`SENTENCE_ENDINGS` (tts.py lines 54-61) is
`[.!?।॥。！？｡؟۔‽⁇⁈⁉।॥۔؟。！？｡]`
`(?![a-z0-9])` `(?:[\s　]+|(?=[　-〿一-鿿가-힯])|$)`.
-/

/-- The terminal-punctuation character class of `SENTENCE_ENDINGS`: the union
of the literal characters and the escaped code points (which duplicate some
of the literals), 15 distinct code points in all. -/
def isTerminator (c : Char) : Bool :=
  decide (c.toNat = 0x2E) || decide (c.toNat = 0x21) || decide (c.toNat = 0x3F) ||
  decide (c.toNat = 0x964) || decide (c.toNat = 0x965) || decide (c.toNat = 0x3002) ||
  decide (c.toNat = 0xFF01) || decide (c.toNat = 0xFF1F) || decide (c.toNat = 0xFF61) ||
  decide (c.toNat = 0x61F) || decide (c.toNat = 0x6D4) || decide (c.toNat = 0x203D) ||
  decide (c.toNat = 0x2047) || decide (c.toNat = 0x2048) || decide (c.toNat = 0x2049)

/-- The class `[a-z0-9]` of the negative lookahead of `SENTENCE_ENDINGS`:
ASCII lowercase letters and digits. -/
def isLowerDigit (c : Char) : Bool :=
  (decide (0x61 ≤ c.toNat) && decide (c.toNat ≤ 0x7A)) ||
  (decide (0x30 ≤ c.toNat) && decide (c.toNat ≤ 0x39))

/-- The set matched by `[\s　]` in a Python `str` pattern: the CPython
Unicode whitespace set (which already contains U+3000).  `str.strip()` strips
the same set, so this predicate also models stripping. -/
def pyIsSpace (c : Char) : Bool :=
  (decide (0x9 ≤ c.toNat) && decide (c.toNat ≤ 0xD)) || decide (c.toNat = 0x20) ||
  (decide (0x1C ≤ c.toNat) && decide (c.toNat ≤ 0x1F)) || decide (c.toNat = 0x85) ||
  decide (c.toNat = 0xA0) || decide (c.toNat = 0x1680) ||
  (decide (0x2000 ≤ c.toNat) && decide (c.toNat ≤ 0x200A)) ||
  decide (c.toNat = 0x2028) || decide (c.toNat = 0x2029) ||
  decide (c.toNat = 0x202F) || decide (c.toNat = 0x205F) || decide (c.toNat = 0x3000)

/-- The CJK/Hangul lookahead class
`[　-〿一-鿿가-힯]` of `SENTENCE_ENDINGS`. -/
def isCjk (c : Char) : Bool :=
  (decide (0x3000 ≤ c.toNat) && decide (c.toNat ≤ 0x303F)) ||
  (decide (0x4E00 ≤ c.toNat) && decide (c.toNat ≤ 0x9FFF)) ||
  (decide (0xAC00 ≤ c.toNat) && decide (c.toNat ≤ 0xD7AF))

/-! ### The regex match and the extraction loop -/

/-- Length of the maximal whitespace run at the front of a string: what the
greedy `[\s　]+` consumes (when it matches at all). -/
def wsRun : List Char → Nat
  | [] => 0
  | c :: rest => if pyIsSpace c then wsRun rest + 1 else 0

/-- Matching `SENTENCE_ENDINGS` at the start of `s`: `some e` when the match
succeeds, `e` the number of consumed characters (the `match.end()` offset
relative to the start).  The first character must be a terminator, the
negative lookahead `(?![a-z0-9])` inspects the next character, then the
alternatives are tried in regex order: greedy whitespace run, CJK lookahead
(consuming nothing), end of input. -/
def matchEnd : List Char → Option Nat
  | [] => none
  | c :: rest =>
    if isTerminator c then
      match rest with
      | [] => some 1
      | d :: _ =>
        if isLowerDigit d then none
        else if pyIsSpace d then some (1 + wsRun rest)
        else if isCjk d then some 1
        else none
    else none

/-- `re.search` over the whole buffer: try `matchEnd` at each start position
from the left and return the absolute end offset of the first match. -/
def searchEnd : List Char → Option Nat
  | [] => none
  | c :: rest =>
    match matchEnd (c :: rest) with
    | some e => some e
    | none => (searchEnd rest).map (fun e => e + 1)

/-- Python `str.strip()`: drop Unicode whitespace from both ends. -/
def pyStrip (s : List Char) : List Char :=
  ((s.dropWhile pyIsSpace).reverse.dropWhile pyIsSpace).reverse

/-- The `while match := SENTENCE_ENDINGS.search(sentence_buffer)` loop of
`data_gen` (tts.py lines 454-462): repeatedly extract the text up to the
first match end, strip it, emit it when non-empty, and continue on the rest.
`fuel` only bounds the recursion; every iteration consumes at least one
character, so any `fuel ≥ buf.length` computes the fixed point. -/
def extractLoop : Nat → List Char → List (List Char) × List Char
  | 0, buf => ([], buf)
  | fuel + 1, buf =>
    match searchEnd buf with
    | none => ([], buf)
    | some e =>
      let sentence := pyStrip (List.take e buf)
      let r := extractLoop fuel (List.drop e buf)
      (if sentence = [] then r.1 else sentence :: r.1, r.2)

/-- One `feed` of the segmenter: append the incoming fragment to the buffer
and run the extraction loop.  Returns the extracted sentences and the new
buffer. -/
def feed (buf chunk : List Char) : List (List Char) × List Char :=
  extractLoop (buf.length + chunk.length) (buf ++ chunk)

/-- Feeding a sequence of fragments in order, accumulating all extracted
sentences and the final buffer. -/
def runFeeds (buf : List Char) : List (List Char) → List (List Char) × List Char
  | [] => ([], buf)
  | chunk :: rest =>
    let r1 := feed buf chunk
    let r2 := runFeeds r1.2 rest
    (r1.1 ++ r2.1, r2.2)

/-- The final flush (tts.py lines 498-500): the stripped remaining buffer,
treated as a final sentence when non-empty. -/
def flushBuf (buf : List Char) : List (List Char) :=
  if pyStrip buf = [] then [] else [pyStrip buf]

/-- The complete ordered sentence sequence produced by feeding `chunks` and
then flushing. -/
def segment (chunks : List (List Char)) : List (List Char) :=
  (runFeeds [] chunks).1 ++ flushBuf (runFeeds [] chunks).2

/-- Feeding the whole input as a single fragment. -/
def segmentWhole (s : List Char) : List (List Char) := segment [s]

/-- Feeding the input one character at a time. -/
def segmentChars (s : List Char) : List (List Char) :=
  segment (s.map (fun c => [c]))

/-- Canonical split used to relate the two feeding disciplines: walk the
input accumulating characters and cut right after every terminator character;
each piece is stripped, and a stripped non-empty remainder is a final piece. -/
def canonSplit (acc : List Char) : List Char → List (List Char)
  | [] => if pyStrip acc = [] then [] else [pyStrip acc]
  | c :: rest =>
    if isTerminator c then pyStrip (acc ++ [c]) :: canonSplit [] rest
    else canonSplit (acc ++ [c]) rest

/-- Inputs on which every terminator character that is not last is
immediately followed by whitespace or a CJK-range character.  On these inputs
a prefix cut can never manufacture a spurious end-of-input boundary. -/
def goodChunk : List Char → Bool
  | [] => true
  | [_] => true
  | c :: d :: rest =>
    (!isTerminator c || (pyIsSpace d || isCjk d)) && goodChunk (d :: rest)

/-- Split a string at its first terminator character:
`some (pre, t, post)` with `pre` terminator-free and `t` a terminator. -/
def splitFirstTerm : List Char → Option (List Char × Char × List Char)
  | [] => none
  | c :: rest =>
    if isTerminator c then some ([], c, rest)
    else (splitFirstTerm rest).map (fun p => (c :: p.1, p.2.1, p.2.2))

/-- All sentences produced from buffer `s` by one whole-buffer extraction run
followed by a flush: the sentence sequence of feeding `s` as one fragment. -/
def wholeOut (s : List Char) : List (List Char) :=
  (extractLoop s.length s).1 ++ flushBuf (extractLoop s.length s).2

/-- All sentences produced by feeding `s` one character at a time starting
from buffer `buf`, followed by a flush. -/
def charOut (buf s : List Char) : List (List Char) :=
  (runFeeds buf (s.map (fun c => [c]))).1 ++
  flushBuf (runFeeds buf (s.map (fun c => [c]))).2

/-! ### Python option values

The options dictionary of the integration holds strings and numbers; `PyVal`
models the values that can reach the prosody options, with floats as exact
rationals (faithful on inputs where the binary64 computation is exact). -/

/-- A Python value stored in the options dictionary. -/
inductive PyVal where
  | vstr (s : String)
  | vint (n : Int)
  | vfloat (q : ℚ)
deriving DecidableEq

/-- Python truthiness of a `PyVal`: empty string and zero are falsy. -/
def pyTruthy : PyVal → Bool
  | .vstr s => decide (s ≠ "")
  | .vint n => decide (n ≠ 0)
  | .vfloat q => decide (q ≠ 0)

/-- Rendering used for rationals interpolated into an f-string; stands in for
the Python float repr (no theorem depends on its exact spelling). -/
def renderRat (q : ℚ) : String := toString q

/-- Python `str()` of a `PyVal`, as used by f-string interpolation. -/
def pyStr : PyVal → String
  | .vstr s => s
  | .vint n => toString n
  | .vfloat q => renderRat q

/-- Python `str.lower()`, restricted to the ASCII range (locale tags and the
pitch keywords that the code compares are ASCII). -/
def pyLower (s : String) : String := String.mk (s.data.map Char.toLower)

/-- Python `s.endswith(t)`. -/
def pyEndsWith (s t : String) : Bool :=
  decide (s.data.drop (s.data.length - t.data.length) = t.data)

/-- Truncation toward zero, the behaviour of Python `int()` on a float. -/
def ratTrunc (q : ℚ) : Int := if 0 ≤ q then ⌊q⌋ else ⌈q⌉

/-- Value of the digit string under `foldl`-style base-10 accumulation. -/
def digitsToNat (l : List Char) : Nat :=
  l.foldl (fun a c => a * 10 + (c.toNat - 48)) 0

/-- Python `float(s)` on decimal literals: optional surrounding whitespace,
optional sign, digits with at most one decimal point.  (Exponents and the
inf/nan spellings are outside this model; no claim exercises them.) -/
def parsePyFloat (s : String) : Option ℚ :=
  let l := pyStrip s.data
  let signRest : ℚ × List Char :=
    match l with
    | c :: rest =>
      if c = Char.ofNat 45 then (-1, rest)
      else if c = Char.ofNat 43 then (1, rest) else (1, l)
    | [] => (1, [])
  let body := signRest.2
  let intPart := body.takeWhile (fun c => decide (c ≠ Char.ofNat 46))
  match body.dropWhile (fun c => decide (c ≠ Char.ofNat 46)) with
  | [] =>
    if intPart ≠ [] ∧ intPart.all Char.isDigit then
      some (signRest.1 * digitsToNat intPart)
    else none
  | _ :: frac =>
    if (intPart ≠ [] ∨ frac ≠ []) ∧ intPart.all Char.isDigit ∧ frac.all Char.isDigit then
      some (signRest.1 * ((digitsToNat intPart : ℚ) + digitsToNat frac / 10 ^ frac.length))
    else none

/-- Python `float(v)` on an option value: parse strings, convert numbers. -/
def pyFloatVal : PyVal → Option ℚ
  | .vstr s => parsePyFloat s
  | .vint n => some n
  | .vfloat q => some q

/-! ### Option normalization (`_normalize_prosody_options`) -/

/-- The smart rate handling (tts.py lines 257-264).  Numbers are formatted:
a float whose absolute value lies in `[0.1, 3.0]` becomes a signed percentage
delta `int((v - 1.0) * 100)` with an explicit plus sign for non-negative
values; any other int or float becomes `str(int(v)) + "%"`.  The
`isinstance(rate, float)` conjunct means ints never take the delta branch.
Strings pass through. -/
def normalizeRate : PyVal → PyVal
  | .vint n => .vstr (toString n ++ "%")
  | .vfloat q =>
    if 1 / 10 ≤ |q| ∧ |q| ≤ 3 then
      .vstr ((if 0 ≤ ratTrunc ((q - 1) * 100) then "+" else "") ++
        toString (ratTrunc ((q - 1) * 100)) ++ "%")
    else .vstr (toString (ratTrunc q) ++ "%")
  | v => v

/-- Rate normalization following the wording of claim C3: any float or int
whose absolute value lies in `[0.1, 3.0]` becomes `round((v - 1.0) * 100)`
formatted with explicit sign; an integer outside that range becomes
`"{value}%"`. -/
def claimRateC3 : PyVal → PyVal
  | .vint n =>
    if 1 / 10 ≤ |(n : ℚ)| ∧ |(n : ℚ)| ≤ 3 then
      .vstr ((if 0 ≤ round (((n : ℚ) - 1) * 100) then "+" else "") ++
        toString (round (((n : ℚ) - 1) * 100)) ++ "%")
    else .vstr (toString n ++ "%")
  | .vfloat q =>
    if 1 / 10 ≤ |q| ∧ |q| ≤ 3 then
      .vstr ((if 0 ≤ round ((q - 1) * 100) then "+" else "") ++
        toString (round ((q - 1) * 100)) ++ "%")
    else .vstr (toString (ratTrunc q) ++ "%")
  | v => v

/-- The pitch keywords Azure accepts. -/
def validPitchNames : List String :=
  ["x-low", "low", "medium", "high", "x-high", "default"]

/-- Pitch validation (tts.py lines 266-270): only strings are inspected; a
string that is neither a known keyword (case-insensitively) nor ends in `%`
or `Hz` is replaced by `"default"`.  Non-strings pass through untouched. -/
def normalizePitch : PyVal → PyVal
  | .vstr s =>
    if ¬ pyLower s ∈ validPitchNames ∧ ¬ (pyEndsWith s "%" || pyEndsWith s "Hz") then
      .vstr "default"
    else .vstr s
  | v => v

/-- Style-degree validation (tts.py lines 272-279): guarded by Python
truthiness, so the empty string and the number zero skip the check entirely;
otherwise parse as float and replace by `"1"` on parse failure or when the
value falls outside `[0.01, 2.0]`. -/
def normalizeStyleDegree (v : PyVal) : PyVal :=
  if pyTruthy v then
    match pyFloatVal v with
    | some d => if ¬ (1 / 100 ≤ d ∧ d ≤ 2) then .vstr "1" else v
    | none => .vstr "1"
  else v

/-- Prosody defaults configured on the config entry
(`config_entry.options`). -/
structure ConfigOptions where
  rate : Option PyVal
  pitch : Option PyVal
  volume : Option PyVal
  style : Option PyVal
  styleDegree : Option PyVal
  role : Option PyVal
deriving DecidableEq

/-- Options passed with one service call; `voice` is the `ATTR_VOICE` key. -/
structure CallOptions where
  voice : Option String
  rate : Option PyVal
  pitch : Option PyVal
  volume : Option PyVal
  style : Option PyVal
  styleDegree : Option PyVal
  role : Option PyVal
deriving DecidableEq

/-- The normalized prosody dictionary returned by
`_normalize_prosody_options`. -/
structure Prosody where
  rate : PyVal
  pitch : PyVal
  volume : PyVal
  style : PyVal
  styleDegree : PyVal
  role : PyVal
deriving DecidableEq

/-- `options.get(key, config_entry.options.get(key, default))`. -/
def getOption (callv cfgv : Option PyVal) (dflt : PyVal) : PyVal :=
  (callv.orElse (fun _ => cfgv)).getD dflt

/-- `_normalize_prosody_options` (tts.py lines 237-288). -/
def normalizeProsodyOptions (opts : CallOptions) (cfgo : ConfigOptions) : Prosody :=
  let rate := getOption opts.rate cfgo.rate (.vstr "0%")
  let pitch := getOption opts.pitch cfgo.pitch (.vstr "default")
  let volume := getOption opts.volume cfgo.volume (.vstr "default")
  let style := getOption opts.style cfgo.style (.vstr "")
  let styleDegree := getOption opts.styleDegree cfgo.styleDegree (.vstr "1")
  let role := getOption opts.role cfgo.role (.vstr "")
  { rate := normalizeRate rate
    pitch := normalizePitch pitch
    volume := volume
    style := style
    styleDegree := normalizeStyleDegree styleDegree
    role := role }

/-! ### SSML building (`_build_ssml`) -/

/-- `SSML_NAMESPACE` from const.py. -/
def SSML_NAMESPACE : String := "https://www.w3.org/2001/mstts"

/-- Python `str.replace` for a single-character pattern: every occurrence of
`c` is replaced by `t`, scanning left to right. -/
def xmlReplace (c : Char) (t : List Char) : List Char → List Char
  | [] => []
  | d :: rest =>
    if d = c then t ++ xmlReplace c t rest else d :: xmlReplace c t rest

/-- `xml.sax.saxutils.escape`: replace `&` first, then `<`, then `>`. -/
def saxEscape (s : List Char) : List Char :=
  xmlReplace (Char.ofNat 62) "&gt;".data
    (xmlReplace (Char.ofNat 60) "&lt;".data
      (xmlReplace (Char.ofNat 38) "&amp;".data s))

/-- The full text escaping of `_build_ssml`:
`escape(message).replace(chr(34), "&quot;")`. -/
def escapeText (s : List Char) : List Char :=
  xmlReplace (Char.ofNat 34) "&quot;".data (saxEscape s)

/-- Character-by-character escaping following the wording of the spec: every
occurrence of each of the four XML-significant characters is replaced by its
entity, all other characters are kept. -/
def specEscapeChar (c : Char) : List Char :=
  if c = Char.ofNat 38 then "&amp;".data
  else if c = Char.ofNat 60 then "&lt;".data
  else if c = Char.ofNat 62 then "&gt;".data
  else if c = Char.ofNat 34 then "&quot;".data
  else [c]

/-- Escaping the whole text with `specEscapeChar`. -/
def specEscape (s : List Char) : List Char := (s.map specEscapeChar).flatten

/-- `_build_ssml` (tts.py lines 290-338): the synthesis request document as a
pure function of text, voice, locale and normalized prosody. -/
def buildSsml (message voice language : String) (p : Prosody) : String :=
  let xmlDoc := "<speak version=\x271.0\x27 xmlns:mstts=\x27" ++ SSML_NAMESPACE ++
    "\x27 " ++ "xml:lang=\x27" ++ language ++ "\x27>" ++
    "<voice xml:lang=\x27" ++ language ++ "\x27 name=\x27" ++ voice ++ "\x27>"
  let xmlDoc :=
    if pyTruthy p.style then
      xmlDoc ++ "<mstts:express-as style=\x27" ++ pyStr p.style ++ "\x27" ++
      (if pyTruthy p.role then " role=\x27" ++ pyStr p.role ++ "\x27" else "") ++
      (if pyTruthy p.styleDegree then
        " styledegree=\x27" ++ pyStr p.styleDegree ++ "\x27" else "") ++ ">"
    else xmlDoc
  let xmlDoc := xmlDoc ++ "<prosody rate=\x27" ++ pyStr p.rate ++ "\x27 " ++
    "pitch=\x27" ++ pyStr p.pitch ++ "\x27 " ++
    "volume=\x27" ++ pyStr p.volume ++ "\x27>"
  let xmlDoc := xmlDoc ++ String.mk (escapeText message.data)
  let xmlDoc := xmlDoc ++ "</prosody>"
  let xmlDoc := if pyTruthy p.style then xmlDoc ++ "</mstts:express-as>" else xmlDoc
  xmlDoc ++ "</voice></speak>"

/-- The part of the document before the escaped text: root and voice
elements, the optional expressive-style wrapper, the prosody element. -/
def ssmlVoiceOpen (voice language : String) : String :=
  "<speak version=\x271.0\x27 xmlns:mstts=\x27" ++ SSML_NAMESPACE ++
  "\x27 " ++ "xml:lang=\x27" ++ language ++ "\x27>" ++
  "<voice xml:lang=\x27" ++ language ++ "\x27 name=\x27" ++ voice ++ "\x27>"

/-- The expressive-style wrapper opening, empty when no style is set. -/
def ssmlStyleOpen (p : Prosody) : String :=
  if pyTruthy p.style then
    "<mstts:express-as style=\x27" ++ pyStr p.style ++ "\x27" ++
    (if pyTruthy p.role then " role=\x27" ++ pyStr p.role ++ "\x27" else "") ++
    (if pyTruthy p.styleDegree then
      " styledegree=\x27" ++ pyStr p.styleDegree ++ "\x27" else "") ++ ">"
  else ""

/-- The prosody element opening. -/
def ssmlProsodyOpen (p : Prosody) : String :=
  "<prosody rate=\x27" ++ pyStr p.rate ++ "\x27 " ++
  "pitch=\x27" ++ pyStr p.pitch ++ "\x27 " ++
  "volume=\x27" ++ pyStr p.volume ++ "\x27>"

/-- The closing tags after the escaped text. -/
def ssmlCloseTags (p : Prosody) : String :=
  "</prosody>" ++ (if pyTruthy p.style then "</mstts:express-as>" else "") ++
  "</voice></speak>"

/-! ### Voice and locale resolution (`_resolve_voice_and_language`) -/

/-- One entry of the Azure voice catalog. -/
structure VoiceEntry where
  shortName : String
  locale : String
  gender : String
  localName : String
deriving DecidableEq

/-- Entity configuration relevant to the modelled methods. -/
structure TtsConfig where
  language : String
  defaultVoice : String
  outputFormat : String
  voicesData : List VoiceEntry
  options : ConfigOptions
deriving DecidableEq

/-- `_find_azure_locale` (tts.py lines 145-154): first catalog entry whose
locale matches case-insensitively; `none` on an empty catalog or no match. -/
def findAzureLocale (voicesData : List VoiceEntry) (language : String) : Option String :=
  (voicesData.find? (fun v => decide (pyLower v.locale = pyLower language))).map
    (fun v => v.locale)

/-- The fallback-selection loop of `_resolve_voice_and_language` (tts.py
lines 227-233): scan the catalog; the first matching Female voice wins and
stops the scan, every other matching voice overwrites `voice` without
stopping. -/
def loopPick (voicesData : List VoiceEntry) (azureLocale : String) (voice : String) :
    String :=
  match voicesData with
  | [] => voice
  | v :: rest =>
    if v.locale = azureLocale then
      if v.gender = "Female" then v.shortName
      else loopPick rest azureLocale v.shortName
    else loopPick rest azureLocale voice

/-- `_resolve_voice_and_language` (tts.py lines 208-235). -/
def resolveVoiceAndLanguage (cfg : TtsConfig) (language : String)
    (opts : CallOptions) : String × String :=
  let voice := opts.voice.getD cfg.defaultVoice
  let azureLocale := findAzureLocale cfg.voicesData language
  let langToUse := azureLocale.getD language
  let voice :=
    match azureLocale with
    | some loc =>
      if cfg.voicesData ≠ [] ∧ opts.voice = none ∧
          pyLower cfg.language ≠ pyLower language then
        loopPick cfg.voicesData loc voice
      else voice
    | none => voice
  (voice, langToUse)

/-! ### Network models -/

/-- Outcome of one synthesis POST inside the streaming generator: a response
with a status and its body chunks, an `aiohttp.ClientError`, or any other
exception (which the generator re-raises). -/
inductive NetOutcome where
  | response (status : Nat) (chunks : List (List Nat))
  | clientError
  | internalFault
deriving DecidableEq

/-- The audio a single request contributes to the output stream: its body
chunks on a 200 status, nothing otherwise. -/
def audioOf : NetOutcome → List (List Nat)
  | .response status chunks => if status = 200 then chunks else []
  | .clientError => []
  | .internalFault => []

/-- State of the streaming generator after some processing: audio chunks
emitted so far, the number of requests issued, the remaining sentence buffer
and whether an exception escaped. -/
structure GenState where
  audio : List (List Nat)
  reqIdx : Nat
  buffer : List Char
  raised : Bool
deriving DecidableEq

/-- The sentence-extraction `while` loop of `data_gen` with synthesis
interleaved (tts.py lines 454-496): each extracted non-empty sentence is
rendered to SSML and posted; a 200 response streams its chunks, any other
status or a `ClientError` is skipped, any other exception aborts.  The
network is an oracle from request index and document to an outcome. -/
def innerLoop (net : Nat → String → NetOutcome) (voice language : String)
    (p : Prosody) : Nat → Nat → List Char → GenState
  | 0, k, buf => ⟨[], k, buf, false⟩
  | fuel + 1, k, buf =>
    match searchEnd buf with
    | none => ⟨[], k, buf, false⟩
    | some e =>
      let sentence := pyStrip (List.take e buf)
      let rest := List.drop e buf
      if sentence = [] then innerLoop net voice language p fuel k rest
      else
        match net k (buildSsml (String.mk sentence) voice language p) with
        | .internalFault => ⟨[], k + 1, rest, true⟩
        | .response status chunks =>
          let r := innerLoop net voice language p fuel (k + 1) rest
          ⟨(if status = 200 then chunks else []) ++ r.audio, r.reqIdx, r.buffer, r.raised⟩
        | .clientError =>
          let r := innerLoop net voice language p fuel (k + 1) rest
          ⟨r.audio, r.reqIdx, r.buffer, r.raised⟩

/-- The outer `async for text_chunk in request.message_gen` loop of
`data_gen` (tts.py lines 450-496). -/
def outerLoop (net : Nat → String → NetOutcome) (voice language : String)
    (p : Prosody) (k : Nat) (buf : List Char) :
    List (List Char) → GenState
  | [] => ⟨[], k, buf, false⟩
  | chunk :: rest =>
    let buf1 := buf ++ chunk
    let st := innerLoop net voice language p buf1.length k buf1
    if st.raised then ⟨st.audio, st.reqIdx, st.buffer, true⟩
    else
      let st2 := outerLoop net voice language p st.reqIdx st.buffer rest
      ⟨st.audio ++ st2.audio, st2.reqIdx, st2.buffer, st2.raised⟩

/-- The whole `data_gen` generator (tts.py lines 444-532): the outer loop
followed by the final-flush request on the stripped remaining buffer.
Returns the emitted audio chunks in order and whether an exception escaped
to the consumer. -/
def dataGen (net : Nat → String → NetOutcome) (voice language : String)
    (p : Prosody) (chunks : List (List Char)) : List (List Nat) × Bool :=
  let st := outerLoop net voice language p 0 [] chunks
  if st.raised then (st.audio, true)
  else
    let remainingText := pyStrip st.buffer
    if remainingText = [] then (st.audio, false)
    else
      match net st.reqIdx (buildSsml (String.mk remainingText) voice language p) with
      | .internalFault => (st.audio, true)
      | .response status chunksOut =>
        (st.audio ++ (if status = 200 then chunksOut else []), false)
      | .clientError => (st.audio, false)

/-- Reference behaviour following the wording of the spec: one request per
sentence in original order, each contributing its audio (or nothing when it
failed), concatenated. -/
def perSentenceAudio (net : Nat → String → NetOutcome) (voice language : String)
    (p : Prosody) (k : Nat) : List (List Char) → List (List Nat)
  | [] => []
  | s :: rest =>
    audioOf (net k (buildSsml (String.mk s) voice language p)) ++
    perSentenceAudio net voice language p (k + 1) rest

/-- Outcome of the single POST of the non-streaming path. -/
inductive FetchResult where
  | response (status : Nat) (body : List Nat)
  | clientError
deriving DecidableEq

/-- `async_get_tts_audio` (tts.py lines 365-408): resolve voice and locale,
normalize options, build SSML, post once; any non-200 status or transport
fault yields `(None, None)`, success yields the fixed `"mp3"` tag and the
body. -/
def asyncGetTtsAudio (cfg : TtsConfig) (message language : String)
    (opts : CallOptions) (net : String → FetchResult) :
    Option String × Option (List Nat) :=
  let vl := resolveVoiceAndLanguage cfg language opts
  let prosody := normalizeProsodyOptions opts cfg.options
  let xmlDoc := buildSsml message vl.1 vl.2 prosody
  match net xmlDoc with
  | .response status body =>
    if status ≠ 200 then (none, none) else (some "mp3", some body)
  | .clientError => (none, none)

/-- `async_stream_tts_audio` (tts.py lines 410-534): resolve and normalize
once, then stream via `data_gen`; the container extension is the fixed
`"mp3"` tag. -/
def asyncStreamTtsAudio (cfg : TtsConfig) (language : String)
    (opts : CallOptions) (net : Nat → String → NetOutcome)
    (chunks : List (List Char)) : String × (List (List Nat) × Bool) :=
  let vl := resolveVoiceAndLanguage cfg language opts
  let prosody := normalizeProsodyOptions opts cfg.options
  ("mp3", dataGen net vl.1 vl.2 prosody chunks)

/-- The keys of `AUDIO_FORMATS` in const.py: every configurable output
encoding profile. -/
def audioFormats : List String :=
  ["audio-24khz-96kbitrate-mono-mp3", "audio-48khz-192kbitrate-mono-mp3",
   "audio-24khz-48kbitrate-mono-mp3", "audio-16khz-128kbitrate-mono-mp3",
   "audio-16khz-64kbitrate-mono-mp3", "ogg-24khz-16bit-mono-opus",
   "ogg-48khz-16bit-mono-opus", "webm-24khz-16bit-mono-opus",
   "raw-8khz-8bit-mono-mulaw", "raw-8khz-8bit-mono-alaw",
   "g722-16khz-64kbps", "amr-wb-16000hz"]

/-! ## Character-class facts -/

theorem term_space_absurd {c : Char} (h1 : isTerminator c = true)
    (h2 : pyIsSpace c = true) : False := by
  simp only [isTerminator, pyIsSpace, Bool.or_eq_true, Bool.and_eq_true,
    decide_eq_true_eq] at h1 h2
  omega

theorem term_not_space {c : Char} (h : isTerminator c = true) :
    pyIsSpace c = false := by
  cases hsp : pyIsSpace c with
  | false => rfl
  | true => exact (term_space_absurd h hsp).elim

theorem space_not_term {c : Char} (h : pyIsSpace c = true) :
    isTerminator c = false := by
  cases ht : isTerminator c with
  | false => rfl
  | true => exact (term_space_absurd ht h).elim

theorem space_not_lowerDigit {c : Char} (h : pyIsSpace c = true) :
    isLowerDigit c = false := by
  cases hl : isLowerDigit c with
  | false => rfl
  | true =>
    exfalso
    simp only [pyIsSpace, isLowerDigit, Bool.or_eq_true, Bool.and_eq_true,
      decide_eq_true_eq] at h hl
    omega

theorem cjk_not_lowerDigit {c : Char} (h : isCjk c = true) :
    isLowerDigit c = false := by
  cases hl : isLowerDigit c with
  | false => rfl
  | true =>
    exfalso
    simp only [isCjk, isLowerDigit, Bool.or_eq_true, Bool.and_eq_true,
      decide_eq_true_eq] at h hl
    omega

/-! ## Bounds for the regex search -/

theorem wsRun_le (s : List Char) : wsRun s ≤ s.length := by
  induction s with
  | nil => simp [wsRun]
  | cons c rest ih =>
    simp only [wsRun, List.length_cons]
    split
    · omega
    · omega

theorem matchEnd_bounds {s : List Char} {e : Nat} (h : matchEnd s = some e) :
    1 ≤ e ∧ e ≤ s.length := by
  match s with
  | [] => exact absurd h (by simp [matchEnd])
  | c :: rest =>
    simp only [matchEnd] at h
    split at h
    · split at h
      · cases h
        simp [List.length_cons]
      · split at h
        · exact Option.noConfusion h
        · split at h
          · cases h
            rename_i d r _ _
            have hw := wsRun_le (d :: r)
            simp only [List.length_cons] at hw ⊢
            omega
          · split at h
            · cases h
              simp only [List.length_cons]
              omega
            · exact Option.noConfusion h
    · exact Option.noConfusion h

theorem searchEnd_nil : searchEnd [] = none := rfl

theorem searchEnd_cons (c : Char) (rest : List Char) :
    searchEnd (c :: rest) =
      match matchEnd (c :: rest) with
      | some e => some e
      | none => (searchEnd rest).map (fun e => e + 1) := rfl

theorem searchEnd_bounds {s : List Char} {e : Nat} (h : searchEnd s = some e) :
    1 ≤ e ∧ e ≤ s.length := by
  induction s generalizing e with
  | nil => exact Option.noConfusion (searchEnd_nil ▸ h)
  | cons c rest ih =>
    rw [searchEnd_cons] at h
    cases hm : matchEnd (c :: rest) with
    | some e1 =>
      rw [hm] at h
      cases h
      exact matchEnd_bounds hm
    | none =>
      rw [hm] at h
      cases hs : searchEnd rest with
      | none => rw [hs] at h; exact Option.noConfusion h
      | some e2 =>
        rw [hs] at h
        simp only [Option.map_some'] at h
        cases h
        have := ih hs
        simp only [List.length_cons]
        omega

/-! ## The extraction loop -/

theorem extractLoop_zero (buf : List Char) : extractLoop 0 buf = ([], buf) := rfl

theorem extractLoop_succ (f : Nat) (buf : List Char) :
    extractLoop (f + 1) buf =
      match searchEnd buf with
      | none => ([], buf)
      | some e =>
        (if pyStrip (List.take e buf) = []
          then (extractLoop f (List.drop e buf)).1
          else pyStrip (List.take e buf) :: (extractLoop f (List.drop e buf)).1,
         (extractLoop f (List.drop e buf)).2) := rfl

theorem extractLoop_some {buf : List Char} {e : Nat} (h : searchEnd buf = some e)
    (f : Nat) :
    extractLoop (f + 1) buf =
      (if pyStrip (List.take e buf) = []
        then (extractLoop f (List.drop e buf)).1
        else pyStrip (List.take e buf) :: (extractLoop f (List.drop e buf)).1,
       (extractLoop f (List.drop e buf)).2) := by
  rw [extractLoop_succ, h]

theorem extractLoop_nil (fuel : Nat) : extractLoop fuel [] = ([], []) := by
  cases fuel with
  | zero => rfl
  | succ f => rw [extractLoop_succ, searchEnd_nil]

theorem extractLoop_of_none {s : List Char} (h : searchEnd s = none) (f : Nat) :
    extractLoop f s = ([], s) := by
  cases f with
  | zero => rfl
  | succ f => rw [extractLoop_succ, h]

theorem extractLoop_congr : ∀ (f1 f2 : Nat) (s : List Char),
    s.length ≤ f1 → s.length ≤ f2 → extractLoop f1 s = extractLoop f2 s
  | 0, f2, s, h1, _ => by
    have : s = [] := List.length_eq_zero.mp (Nat.le_zero.mp h1)
    subst this
    rw [extractLoop_nil, extractLoop_nil]
  | _ + 1, 0, s, _, h2 => by
    have : s = [] := List.length_eq_zero.mp (Nat.le_zero.mp h2)
    subst this
    rw [extractLoop_nil, extractLoop_nil]
  | f1 + 1, f2 + 1, s, h1, h2 => by
    cases hs : searchEnd s with
    | none => rw [extractLoop_of_none hs, extractLoop_of_none hs]
    | some e =>
      have hb := searchEnd_bounds hs
      have hd1 : (List.drop e s).length ≤ f1 := by
        simp only [List.length_drop]; omega
      have hd2 : (List.drop e s).length ≤ f2 := by
        simp only [List.length_drop]; omega
      rw [extractLoop_some hs f1, extractLoop_some hs f2]
      rw [extractLoop_congr f1 f2 (List.drop e s) hd1 hd2]

theorem extractLoop_run (s : List Char) {e : Nat} {f : Nat} (hf : s.length ≤ f)
    (hs : searchEnd s = some e) :
    extractLoop f s =
      (if pyStrip (List.take e s) = []
        then (extractLoop (List.drop e s).length (List.drop e s)).1
        else pyStrip (List.take e s) ::
          (extractLoop (List.drop e s).length (List.drop e s)).1,
       (extractLoop (List.drop e s).length (List.drop e s)).2) := by
  have hb := searchEnd_bounds hs
  match f with
  | 0 => omega
  | f + 1 =>
    rw [extractLoop_some hs f]
    rw [extractLoop_congr f (List.drop e s).length (List.drop e s)
      (by simp only [List.length_drop]; omega) (le_refl _)]

/-! ## Stripping -/

theorem pyStrip_eq_nil_iff {s : List Char} :
    pyStrip s = [] ↔ ∀ c ∈ s, pyIsSpace c = true := by
  unfold pyStrip
  rw [List.reverse_eq_nil_iff, List.dropWhile_eq_nil_iff]
  constructor
  · intro h c hc
    have hsplit := List.takeWhile_append_dropWhile (p := pyIsSpace) (l := s)
    rw [← hsplit] at hc
    rcases List.mem_append.mp hc with h1 | h2
    · exact List.mem_takeWhile_imp h1
    · exact h c (List.mem_reverse.mpr h2)
  · intro h c hc
    have hc2 : c ∈ List.dropWhile pyIsSpace s := List.mem_reverse.mp hc
    have hsplit := List.takeWhile_append_dropWhile (p := pyIsSpace) (l := s)
    exact h c (by rw [← hsplit]; exact List.mem_append.mpr (Or.inr hc2))

theorem pyStrip_spaces_left {ws xs : List Char}
    (hws : ∀ c ∈ ws, pyIsSpace c = true) :
    pyStrip (ws ++ xs) = pyStrip xs := by
  unfold pyStrip
  rw [List.dropWhile_append_of_pos hws]

theorem pyStrip_spaces_right {xs ws : List Char}
    (hws : ∀ c ∈ ws, pyIsSpace c = true) :
    pyStrip (xs ++ ws) = pyStrip xs := by
  by_cases hxs : List.dropWhile pyIsSpace xs = []
  · have hall : ∀ c ∈ xs, pyIsSpace c = true := List.dropWhile_eq_nil_iff.mp hxs
    have h1 : pyStrip xs = [] := pyStrip_eq_nil_iff.mpr hall
    have h2 : pyStrip (xs ++ ws) = [] := pyStrip_eq_nil_iff.mpr (by
      intro c hc
      rcases List.mem_append.mp hc with h | h
      · exact hall c h
      · exact hws c h)
    rw [h1, h2]
  · unfold pyStrip
    rw [List.dropWhile_append]
    have hne : (List.dropWhile pyIsSpace xs).isEmpty = false := by
      cases hd : List.dropWhile pyIsSpace xs with
      | nil => exact absurd hd hxs
      | cons a l => rfl
    rw [hne]
    simp only [Bool.false_eq_true, if_false]
    rw [List.reverse_append,
      List.dropWhile_append_of_pos (fun c hc => hws c (List.mem_reverse.mp hc))]

theorem pyStrip_ne_nil_of_last {xs : List Char} {c : Char}
    (hc : pyIsSpace c = false) : pyStrip (xs ++ [c]) ≠ [] := by
  intro h
  have := pyStrip_eq_nil_iff.mp h c (by simp)
  rw [hc] at this
  exact Bool.false_ne_true this

/-! ## matchEnd computation lemmas -/

theorem matchEnd_nonterm {c : Char} (rest : List Char)
    (hc : isTerminator c = false) : matchEnd (c :: rest) = none := by
  simp [matchEnd, hc]

theorem matchEnd_term_nil {c : Char} (hc : isTerminator c = true) :
    matchEnd [c] = some 1 := by
  simp [matchEnd, hc]

theorem matchEnd_term_space {c d : Char} {r : List Char}
    (hc : isTerminator c = true) (hd : pyIsSpace d = true) :
    matchEnd (c :: d :: r) = some (1 + wsRun (d :: r)) := by
  simp [matchEnd, hc, space_not_lowerDigit hd, hd]

theorem matchEnd_term_cjk {c d : Char} {r : List Char}
    (hc : isTerminator c = true) (hd : isCjk d = true)
    (hnsp : pyIsSpace d = false) : matchEnd (c :: d :: r) = some 1 := by
  simp [matchEnd, hc, cjk_not_lowerDigit hd, hnsp, hd]

theorem wsRun_head_false {d : Char} {r : List Char} (hd : pyIsSpace d = false) :
    wsRun (d :: r) = 0 := by
  simp [wsRun, hd]

theorem wsRun_take_spaces : ∀ (s : List Char), ∀ c ∈ s.take (wsRun s),
    pyIsSpace c = true
  | [], c, hc => by simp at hc
  | d :: rest, c, hc => by
    by_cases hd : pyIsSpace d = true
    · simp only [wsRun, hd, if_true] at hc
      rw [List.take_succ_cons] at hc
      rcases List.mem_cons.mp hc with rfl | hc
      · exact hd
      · exact wsRun_take_spaces rest c hc
    · rw [wsRun_head_false (Bool.eq_false_iff.mpr hd)] at hc
      simp at hc

/-! ## searchEnd characterizations -/

theorem searchEnd_of_no_term : ∀ {s : List Char},
    (∀ c ∈ s, isTerminator c = false) → searchEnd s = none
  | [], _ => rfl
  | c :: rest, h => by
    rw [searchEnd_cons, matchEnd_nonterm rest (h c (by simp)),
      searchEnd_of_no_term (fun d hd => h d (by simp [hd]))]
    rfl

theorem searchEnd_term_last : ∀ {buf : List Char} {c : Char},
    (∀ x ∈ buf, isTerminator x = false) → isTerminator c = true →
    searchEnd (buf ++ [c]) = some (buf.length + 1)
  | [], c, _, hc => by
    rw [List.nil_append, searchEnd_cons, matchEnd_term_nil hc]
    rfl
  | b :: buf, c, hb, hc => by
    rw [List.cons_append, searchEnd_cons,
      matchEnd_nonterm _ (hb b (by simp)),
      searchEnd_term_last (fun x hx => hb x (by simp [hx])) hc]
    simp [List.length_cons]

/-! ## goodChunk facts -/

theorem goodChunk_tail : ∀ {c : Char} {s : List Char},
    goodChunk (c :: s) = true → goodChunk s = true
  | _, [], _ => rfl
  | _, _ :: _, h => by
    simp only [goodChunk, Bool.and_eq_true] at h
    exact h.2

theorem goodChunk_drop : ∀ (k : Nat) {s : List Char}, goodChunk s = true →
    goodChunk (s.drop k) = true
  | 0, _, h => h
  | _ + 1, [], h => h
  | k + 1, _ :: _, h => goodChunk_drop k (goodChunk_tail h)

theorem goodChunk_append_right : ∀ {l1 l2 : List Char},
    goodChunk (l1 ++ l2) = true → goodChunk l2 = true
  | [], _, h => h
  | _ :: _, _, h => goodChunk_append_right (goodChunk_tail h)

theorem goodChunk_pair {c d : Char} {s : List Char}
    (h : goodChunk (c :: d :: s) = true) (hc : isTerminator c = true) :
    pyIsSpace d = true ∨ isCjk d = true := by
  simp only [goodChunk, Bool.and_eq_true, Bool.or_eq_true] at h
  rcases h.1 with h1 | h1
  · rw [hc] at h1
    exact absurd h1 (by simp)
  · exact h1

/-! ## splitFirstTerm facts -/

theorem splitFirstTerm_none : ∀ {s : List Char}, splitFirstTerm s = none →
    ∀ c ∈ s, isTerminator c = false
  | [], _, c, hc => by simp at hc
  | b :: rest, h, c, hc => by
    by_cases hb : isTerminator b = true
    · simp [splitFirstTerm, hb] at h
    · simp only [splitFirstTerm, hb, Bool.false_eq_true, if_false,
        Option.map_eq_none'] at h
      rcases List.mem_cons.mp hc with rfl | hc
      · exact Bool.eq_false_iff.mpr hb
      · exact splitFirstTerm_none h c hc

theorem splitFirstTerm_some : ∀ {s pre post : List Char} {t : Char},
    splitFirstTerm s = some (pre, t, post) →
    s = pre ++ t :: post ∧ (∀ c ∈ pre, isTerminator c = false) ∧
      isTerminator t = true
  | [], pre, post, t, h => by simp [splitFirstTerm] at h
  | b :: rest, pre, post, t, h => by
    by_cases hb : isTerminator b = true
    · simp only [splitFirstTerm, hb, if_true, Option.some.injEq, Prod.mk.injEq] at h
      obtain ⟨h1, h2, h3⟩ := h
      subst h1; subst h2; subst h3
      exact ⟨rfl, by simp, hb⟩
    · simp only [splitFirstTerm, hb, Bool.false_eq_true, if_false] at h
      cases hs : splitFirstTerm rest with
      | none => rw [hs] at h; exact Option.noConfusion h
      | some p =>
        obtain ⟨p1, pt, p2⟩ := p
        rw [hs] at h
        simp only [Option.map_some', Option.some.injEq, Prod.mk.injEq] at h
        obtain ⟨h1, h2, h3⟩ := h
        subst h1; subst h2; subst h3
        obtain ⟨hr1, hr2, hr3⟩ := splitFirstTerm_some hs
        refine ⟨by rw [List.cons_append, ← hr1], ?_, hr3⟩
        intro c hc
        rcases List.mem_cons.mp hc with rfl | hc
        · exact Bool.eq_false_iff.mpr hb
        · exact hr2 c hc

theorem searchEnd_good : ∀ {s pre post : List Char} {t : Char},
    goodChunk s = true → splitFirstTerm s = some (pre, t, post) →
    searchEnd s = some (pre.length + (wsRun post + 1))
  | [], pre, post, t, _, h => by simp [splitFirstTerm] at h
  | b :: rest, pre, post, t, hg, h => by
    by_cases hb : isTerminator b = true
    · simp only [splitFirstTerm, hb, if_true, Option.some.injEq, Prod.mk.injEq] at h
      obtain ⟨h1, h2, h3⟩ := h
      subst h1; subst h2; subst h3
      rw [searchEnd_cons]
      match rest with
      | [] =>
        rw [matchEnd_term_nil hb]
        rfl
      | d :: r =>
        by_cases hd : pyIsSpace d = true
        · rw [matchEnd_term_space hb hd]
          simp only [List.length_nil]
          congr 1
          omega
        · have hdf : pyIsSpace d = false := Bool.eq_false_iff.mpr hd
          rcases goodChunk_pair hg hb with hsp | hcjk
          · exact absurd hsp hd
          · rw [matchEnd_term_cjk hb hcjk hdf]
            simp only [List.length_nil, wsRun_head_false hdf]
    · simp only [splitFirstTerm, hb, Bool.false_eq_true, if_false] at h
      cases hs : splitFirstTerm rest with
      | none => rw [hs] at h; exact Option.noConfusion h
      | some p =>
        obtain ⟨p1, pt, p2⟩ := p
        rw [hs] at h
        simp only [Option.map_some', Option.some.injEq, Prod.mk.injEq] at h
        obtain ⟨h1, h2, h3⟩ := h
        subst h1; subst h2; subst h3
        rw [searchEnd_cons, matchEnd_nonterm _ (Bool.eq_false_iff.mpr hb),
          searchEnd_good (goodChunk_tail hg) hs]
        simp only [Option.map_some', Option.some.injEq, List.length_cons]
        omega

/-! ## canonSplit lemmas -/

theorem canonSplit_nil_eq (acc : List Char) :
    canonSplit acc [] = if pyStrip acc = [] then [] else [pyStrip acc] := rfl

theorem canonSplit_cons_eq (acc : List Char) (c : Char) (rest : List Char) :
    canonSplit acc (c :: rest) =
      if isTerminator c then pyStrip (acc ++ [c]) :: canonSplit [] rest
      else canonSplit (acc ++ [c]) rest := rfl

theorem canonSplit_walk : ∀ (pre : List Char),
    (∀ c ∈ pre, isTerminator c = false) →
    ∀ (acc rest : List Char), canonSplit acc (pre ++ rest) = canonSplit (acc ++ pre) rest
  | [], _, acc, rest => by simp
  | c :: pre, h, acc, rest => by
    have hc : isTerminator c = false := h c (by simp)
    rw [List.cons_append, canonSplit_cons_eq, hc]
    simp only [Bool.false_eq_true, if_false]
    rw [canonSplit_walk pre (fun d hd => h d (by simp [hd])) (acc ++ [c]) rest]
    congr 1
    simp

theorem canonSplit_spaces_acc : ∀ (s ws acc : List Char),
    (∀ c ∈ ws, pyIsSpace c = true) →
    canonSplit (ws ++ acc) s = canonSplit acc s
  | [], ws, acc, hws => by
    rw [canonSplit_nil_eq, canonSplit_nil_eq, pyStrip_spaces_left hws]
  | c :: s, ws, acc, hws => by
    rw [canonSplit_cons_eq, canonSplit_cons_eq]
    by_cases hc : isTerminator c = true
    · rw [hc]
      simp only [if_true]
      rw [show (ws ++ acc) ++ [c] = ws ++ (acc ++ [c]) from by simp,
        pyStrip_spaces_left hws]
    · have hcf : isTerminator c = false := Bool.eq_false_iff.mpr hc
      rw [hcf]
      simp only [Bool.false_eq_true, if_false]
      rw [show (ws ++ acc) ++ [c] = ws ++ (acc ++ [c]) from by simp]
      exact canonSplit_spaces_acc s ws (acc ++ [c]) hws

theorem canonSplit_no_term {s : List Char} (h : ∀ c ∈ s, isTerminator c = false)
    (acc : List Char) :
    canonSplit acc s = if pyStrip (acc ++ s) = [] then [] else [pyStrip (acc ++ s)] := by
  have h1 : canonSplit acc (s ++ []) = canonSplit (acc ++ s) [] :=
    canonSplit_walk s h acc []
  rw [List.append_nil] at h1
  rw [h1, canonSplit_nil_eq]

theorem canonSplit_drop_spaces (q : List Char) :
    canonSplit [] q = canonSplit [] (q.drop (wsRun q)) := by
  have hsp := wsRun_take_spaces q
  have hnt : ∀ c ∈ q.take (wsRun q), isTerminator c = false :=
    fun c hc => space_not_term (hsp c hc)
  conv_lhs => rw [← List.take_append_drop (wsRun q) q]
  rw [canonSplit_walk (q.take (wsRun q)) hnt [] (q.drop (wsRun q))]
  rw [List.nil_append]
  have := canonSplit_spaces_acc (q.drop (wsRun q)) (q.take (wsRun q)) [] hsp
  rw [List.append_nil] at this
  exact this

/-! ## The character-at-a-time feeding discipline -/

theorem runFeeds_nil (buf : List Char) : runFeeds buf [] = ([], buf) := rfl

theorem runFeeds_cons (buf chunk : List Char) (rest : List (List Char)) :
    runFeeds buf (chunk :: rest) =
      ((feed buf chunk).1 ++ (runFeeds (feed buf chunk).2 rest).1,
       (runFeeds (feed buf chunk).2 rest).2) := rfl

theorem feed_term {buf : List Char} {c : Char}
    (hbuf : ∀ x ∈ buf, isTerminator x = false) (hc : isTerminator c = true) :
    feed buf [c] = ([pyStrip (buf ++ [c])], []) := by
  unfold feed
  have hse := searchEnd_term_last hbuf hc
  have hlen : (buf ++ [c]).length = buf.length + 1 := by simp
  rw [extractLoop_run (buf ++ [c]) (by simp) hse]
  rw [List.take_of_length_le (by simp), List.drop_eq_nil_of_le (by simp)]
  rw [extractLoop_nil]
  have hne : pyStrip (buf ++ [c]) ≠ [] := pyStrip_ne_nil_of_last (term_not_space hc)
  simp [hne]

theorem feed_nonterm {buf : List Char} {c : Char}
    (h : ∀ x ∈ buf ++ [c], isTerminator x = false) :
    feed buf [c] = ([], buf ++ [c]) := by
  unfold feed
  rw [extractLoop_of_none (searchEnd_of_no_term h)]

theorem charOut_eq_canon : ∀ (s buf : List Char),
    (∀ c ∈ buf, isTerminator c = false) → charOut buf s = canonSplit buf s
  | [], buf, _ => by
    unfold charOut
    rw [List.map_nil, runFeeds_nil, canonSplit_nil_eq]
    rfl
  | c :: s, buf, hbuf => by
    unfold charOut
    rw [List.map_cons, runFeeds_cons]
    by_cases hc : isTerminator c = true
    · rw [feed_term hbuf hc]
      have ih := charOut_eq_canon s [] (by simp)
      unfold charOut at ih
      rw [canonSplit_cons_eq, hc]
      simp only [if_true]
      rw [← ih]
      simp
    · have hcf : isTerminator c = false := Bool.eq_false_iff.mpr hc
      have hall : ∀ x ∈ buf ++ [c], isTerminator x = false := by
        intro x hx
        rcases List.mem_append.mp hx with h | h
        · exact hbuf x h
        · rcases List.mem_singleton.mp h with rfl
          exact hcf
      rw [feed_nonterm hall]
      have ih := charOut_eq_canon s (buf ++ [c]) hall
      unfold charOut at ih
      rw [canonSplit_cons_eq, hcf]
      simp only [Bool.false_eq_true, if_false]
      rw [← ih]
      simp

theorem segmentChars_eq_canon (s : List Char) :
    segmentChars s = canonSplit [] s := by
  have h := charOut_eq_canon s [] (by simp)
  unfold charOut at h
  unfold segmentChars segment
  exact h

/-! ## The whole-input feeding discipline -/

theorem wholeOut_eq_canon : ∀ (n : Nat) (s : List Char), s.length ≤ n →
    goodChunk s = true → wholeOut s = canonSplit [] s
  | 0, s, hn, _ => by
    have hs : s = [] := List.length_eq_zero.mp (Nat.le_zero.mp hn)
    subst hs
    unfold wholeOut
    rw [extractLoop_nil, canonSplit_nil_eq]
    rfl
  | n + 1, s, hn, hg => by
    cases hsp : splitFirstTerm s with
    | none =>
      have hnt := splitFirstTerm_none hsp
      have hse : searchEnd s = none := searchEnd_of_no_term hnt
      unfold wholeOut
      rw [extractLoop_of_none hse, canonSplit_no_term hnt [], List.nil_append]
      rfl
    | some pts =>
      obtain ⟨pre, t, post⟩ := pts
      obtain ⟨hseq, hpre, ht⟩ := splitFirstTerm_some hsp
      subst hseq
      have hse : searchEnd (pre ++ t :: post) =
          some (pre.length + (wsRun post + 1)) := searchEnd_good hg hsp
      have htake : (pre ++ t :: post).take (pre.length + (wsRun post + 1)) =
          pre ++ t :: post.take (wsRun post) := by
        rw [List.take_append, List.take_succ_cons]
      have hdrop : (pre ++ t :: post).drop (pre.length + (wsRun post + 1)) =
          post.drop (wsRun post) := by
        rw [List.drop_append, List.drop_succ_cons]
      have hsent : pyStrip ((pre ++ t :: post).take (pre.length + (wsRun post + 1))) =
          pyStrip (pre ++ [t]) := by
        rw [htake, show pre ++ t :: post.take (wsRun post) =
          (pre ++ [t]) ++ post.take (wsRun post) from by simp]
        exact pyStrip_spaces_right (wsRun_take_spaces post)
      have hne : pyStrip (pre ++ [t]) ≠ [] :=
        pyStrip_ne_nil_of_last (term_not_space ht)
      have hlen : (post.drop (wsRun post)).length ≤ n := by
        simp only [List.length_append, List.length_cons, List.length_drop] at hn ⊢
        omega
      have hg2 : goodChunk (post.drop (wsRun post)) = true :=
        goodChunk_drop _ (goodChunk_tail (goodChunk_append_right hg))
      have ih := wholeOut_eq_canon n (post.drop (wsRun post)) hlen hg2
      unfold wholeOut at ih
      unfold wholeOut
      rw [extractLoop_run (pre ++ t :: post) (le_refl _) hse]
      rw [hsent, hdrop, if_neg hne]
      rw [canonSplit_walk pre hpre [] (t :: post), List.nil_append,
        canonSplit_cons_eq, ht]
      simp only [if_true]
      rw [canonSplit_drop_spaces post, ← ih]
      simp

theorem segmentWhole_eq_canon {s : List Char} (hg : goodChunk s = true) :
    segmentWhole s = canonSplit [] s := by
  have h : segmentWhole s = wholeOut s := by
    unfold segmentWhole segment wholeOut
    rw [runFeeds_cons, runFeeds_nil]
    unfold feed
    simp
  rw [h]
  exact wholeOut_eq_canon s.length s (le_refl _) hg

/-! ## Claim C1: chunking invariance of the segmenter -/

/-- **C1** (amended).  Chunking-invariance of the sentence segmenter holds
for every input in which each terminator character that is not last is
immediately followed by whitespace or a CJK-range character: on such inputs,
feeding one character at a time and feeding all at once yield the identical
ordered sequence of extracted sentences once the final flush is included.
Unrestricted chunking-invariance is refuted by
`c1_chunking_invariance_cex`. -/
theorem c1_chunking_invariance {s : List Char} (h : goodChunk s = true) :
    segmentChars s = segmentWhole s := by
  rw [segmentChars_eq_canon, segmentWhole_eq_canon h]

/-- Witness for `c1_chunking_invariance` at the concrete input
`"One. Two."`. -/
theorem c1_chunking_invariance_witness :
    goodChunk "One. Two.".data = true ∧
    segmentChars "One. Two.".data = segmentWhole "One. Two.".data :=
  ⟨by decide, c1_chunking_invariance (by decide)⟩

/-- Counterexample to C1 as stated: on `"a.b"`, feeding one character at a
time the period is last in the buffer, so the end-of-input alternative fires
and `"a."` is extracted; fed whole, the lookahead sees `b` and finds no
boundary.  The two disciplines produce different sentence sequences. -/
theorem c1_chunking_invariance_cex :
    segmentChars "a.b".data ≠ segmentWhole "a.b".data := by decide

/-! ## Claim C2: the abbreviation/decimal example -/

/-- **C2** (amended).  For `"Mr. Smith paid $3.50 today"` fed whole, the
period after `Mr` IS a sentence boundary (it is followed by a space, and a
space is not a lowercase letter or digit), so the segmenter extracts `"Mr."`
and the flush returns `"Smith paid $3.50 today"`.  The period inside `3.50`
is not a boundary (followed by a digit): the remainder contains no further
match. -/
theorem c2_mr_smith :
    segmentWhole "Mr. Smith paid $3.50 today".data =
      ["Mr.".data, "Smith paid $3.50 today".data] ∧
    searchEnd "Mr. Smith paid $3.50 today".data = some 4 ∧
    searchEnd "Smith paid $3.50 today".data = none := by decide

/-- Counterexample to C2 as stated: the claim predicts no extracted sentence
and a flush of the whole trimmed string, i.e. the singleton output; the code
splits after `"Mr."`. -/
theorem c2_mr_smith_cex :
    segmentWhole "Mr. Smith paid $3.50 today".data ≠
      ["Mr. Smith paid $3.50 today".data] := by decide

/-! ## Claim C3: rate normalization -/

theorem getOption_some (v : PyVal) (cfgv : Option PyVal) (d : PyVal) :
    getOption (some v) cfgv d = v := rfl

theorem getOption_none_none (d : PyVal) : getOption none none d = d := rfl

theorem prosody_rate (opts : CallOptions) (cfgo : ConfigOptions) :
    (normalizeProsodyOptions opts cfgo).rate =
      normalizeRate (getOption opts.rate cfgo.rate (.vstr "0%")) := rfl

theorem normalizeRate_vfloat (q : ℚ) :
    normalizeRate (.vfloat q) =
      if 1 / 10 ≤ |q| ∧ |q| ≤ 3 then
        .vstr ((if 0 ≤ ratTrunc ((q - 1) * 100) then "+" else "") ++
          toString (ratTrunc ((q - 1) * 100)) ++ "%")
      else .vstr (toString (ratTrunc q) ++ "%") := rfl

theorem rat_087_bounds : (1 : ℚ) / 10 ≤ |(87 : ℚ) / 100| ∧ |(87 : ℚ) / 100| ≤ 3 := by
  constructor <;> rw [abs_of_nonneg (by norm_num : (0 : ℚ) ≤ 87 / 100)] <;> norm_num

theorem ratTrunc_087 : ratTrunc (((87 : ℚ) / 100 - 1) * 100) = -13 := by
  rw [show ((87 : ℚ) / 100 - 1) * 100 = -13 by norm_num]
  unfold ratTrunc
  rw [if_neg (by norm_num)]
  rw [show (-13 : ℚ) = ((-13 : ℤ) : ℚ) by norm_num, Int.ceil_intCast]

theorem normalizeRate_087 : normalizeRate (.vfloat (87 / 100)) = .vstr "-13%" := by
  rw [normalizeRate_vfloat, if_pos rat_087_bounds, ratTrunc_087,
    if_neg (by norm_num : ¬ (0 : ℤ) ≤ -13)]
  decide

/-- **C3** (amended).  Rate normalization: a rate given as a float whose
absolute value lies in `[0.1, 3.0]` is normalized to the truncation toward
zero of `(value - 1.0) * 100` (the behaviour of Python `int()`), formatted
as a percentage with an explicit plus sign for non-negative deltas; a rate
given as an int is always formatted as `"{value}%"` (the
`isinstance(rate, float)` conjunct excludes ints from the delta branch);
when absent the default is `"0%"`.  In particular `0.87` normalizes to
`"-13%"` and `50` to `"50%"`.  The claim as stated (ints in range take the
delta branch, and the delta is `round(...)`) is refuted by
`c3_rate_normalization_cex`. -/
theorem c3_rate_normalization :
    (∀ (q : ℚ) (opts : CallOptions) (cfgo : ConfigOptions),
      opts.rate = some (.vfloat q) → 1 / 10 ≤ |q| → |q| ≤ 3 →
      (normalizeProsodyOptions opts cfgo).rate =
        .vstr ((if 0 ≤ ratTrunc ((q - 1) * 100) then "+" else "") ++
          toString (ratTrunc ((q - 1) * 100)) ++ "%")) ∧
    (∀ (n : ℤ) (opts : CallOptions) (cfgo : ConfigOptions),
      opts.rate = some (.vint n) →
      (normalizeProsodyOptions opts cfgo).rate = .vstr (toString n ++ "%")) ∧
    (∀ (opts : CallOptions) (cfgo : ConfigOptions),
      opts.rate = none → cfgo.rate = none →
      (normalizeProsodyOptions opts cfgo).rate = .vstr "0%") ∧
    normalizeRate (.vfloat (87 / 100)) = .vstr "-13%" ∧
    normalizeRate (.vint 50) = .vstr "50%" := by
  refine ⟨?_, ?_, ?_, normalizeRate_087, by decide⟩
  · intro q opts cfgo hr h1 h2
    rw [prosody_rate, hr, getOption_some, normalizeRate_vfloat,
      if_pos ⟨h1, h2⟩]
  · intro n opts cfgo hr
    rw [prosody_rate, hr, getOption_some]
    rfl
  · intro opts cfgo hr hcr
    rw [prosody_rate, hr, hcr, getOption_none_none]
    rfl

/-- Witness for `c3_rate_normalization`: with the rate option `0.87` and no
configured defaults, the normalized rate is `"-13%"`. -/
theorem c3_rate_normalization_witness :
    (normalizeProsodyOptions
      ⟨none, some (.vfloat (87 / 100)), none, none, none, none, none⟩
      ⟨none, none, none, none, none, none⟩).rate = .vstr "-13%" := by
  rw [c3_rate_normalization.1 (87 / 100) _ _ rfl rat_087_bounds.1
    rat_087_bounds.2]
  rw [ratTrunc_087, if_neg (by norm_num : ¬ (0 : ℤ) ≤ -13)]
  decide

/-- Counterexample to C3 as stated: the int `2` has absolute value in
`[0.1, 3.0]`, so the claim predicts the delta format `"+100%"`, but the code
requires `isinstance(rate, float)` and formats it as `"2%"`. -/
theorem c3_rate_normalization_cex :
    normalizeRate (.vint 2) ≠ claimRateC3 (.vint 2) := by
  have h2 : claimRateC3 (.vint 2) = .vstr "+100%" := by
    show (if (1 : ℚ) / 10 ≤ |((2 : ℤ) : ℚ)| ∧ |((2 : ℤ) : ℚ)| ≤ 3 then
        PyVal.vstr ((if 0 ≤ round ((((2 : ℤ) : ℚ) - 1) * 100) then "+" else "") ++
          toString (round ((((2 : ℤ) : ℚ) - 1) * 100)) ++ "%")
      else PyVal.vstr (toString (2 : ℤ) ++ "%")) = PyVal.vstr "+100%"
    rw [if_pos (by
      constructor <;>
        rw [abs_of_nonneg (by push_cast; norm_num : (0 : ℚ) ≤ ((2 : ℤ) : ℚ))] <;>
        push_cast <;> norm_num)]
    rw [show ((((2 : ℤ) : ℚ)) - 1) * 100 = ((100 : ℤ) : ℚ) by push_cast; norm_num]
    rw [round_intCast]
    rw [if_pos (by norm_num : (0 : ℤ) ≤ 100)]
    decide
  rw [h2]
  decide

/-! ## Claim C4: voice fallback -/

theorem getLast?_cons_eq {α : Type _} : ∀ (a : α) (l : List α),
    (a :: l).getLast? = some (l.getLast?.getD a)
  | _, [] => rfl
  | a, b :: l => by
    rw [List.getLast?_cons_cons, getLast?_cons_eq b l]
    simp [getLast?_cons_eq b l]

theorem loopPick_eq : ∀ (vs : List VoiceEntry) (loc fb : String),
    loopPick vs loc fb =
      match (vs.filter (fun v => decide (v.locale = loc))).find?
          (fun v => decide (v.gender = "Female")) with
      | some v => v.shortName
      | none =>
        (((vs.filter (fun v => decide (v.locale = loc))).getLast?).map
          (fun v => v.shortName)).getD fb
  | [], _, _ => rfl
  | v :: vs, loc, fb => by
    have hfilter : (v :: vs).filter (fun v => decide (v.locale = loc)) =
        if v.locale = loc then v :: vs.filter (fun v => decide (v.locale = loc))
        else vs.filter (fun v => decide (v.locale = loc)) := by
      rw [List.filter_cons]
      by_cases hl : v.locale = loc
      · rw [if_pos hl, if_pos (by simp [hl])]
      · rw [if_neg hl, if_neg (by simp [hl])]
    by_cases hl : v.locale = loc
    · rw [hfilter, if_pos hl]
      by_cases hg : v.gender = "Female"
      · show (if v.locale = loc then
            if v.gender = "Female" then v.shortName
            else loopPick vs loc v.shortName
          else loopPick vs loc fb) = _
        rw [if_pos hl, if_pos hg, List.find?_cons_of_pos _ (by simp [hg])]
      · show (if v.locale = loc then
            if v.gender = "Female" then v.shortName
            else loopPick vs loc v.shortName
          else loopPick vs loc fb) = _
        rw [if_pos hl, if_neg hg, loopPick_eq vs loc v.shortName,
          List.find?_cons_of_neg _ (by simp [hg])]
        cases hf : (vs.filter (fun v => decide (v.locale = loc))).find?
            (fun v => decide (v.gender = "Female")) with
        | some w => rfl
        | none =>
          show ((((vs.filter (fun v => decide (v.locale = loc))).getLast?).map
              (fun v => v.shortName)).getD v.shortName) =
            ((((v :: vs.filter (fun v => decide (v.locale = loc))).getLast?).map
              (fun v => v.shortName)).getD fb)
          rw [getLast?_cons_eq]
          cases hL : (vs.filter (fun v => decide (v.locale = loc))).getLast? with
          | none => rfl
          | some u => rfl
    · rw [hfilter, if_neg hl]
      show (if v.locale = loc then
          if v.gender = "Female" then v.shortName
          else loopPick vs loc v.shortName
        else loopPick vs loc fb) = _
      rw [if_neg hl]
      exact loopPick_eq vs loc fb

/-- **C4** (amended).  Whenever no explicit voice is supplied and the
requested locale differs case-insensitively from the configured default
locale, the resolver picks a voice for the resolved locale from the catalog,
preferring the first voice with gender `"Female"`; if no female voice exists
for that locale it uses the LAST voice found for that locale in catalog
iteration order (each non-female match overwrites the previous choice), not
the first.  The first-voice tie-break of the claim as stated is refuted by
`c4_voice_fallback_cex`. -/
theorem c4_voice_fallback (cfg : TtsConfig) (language loc : String)
    (opts : CallOptions) (hv : opts.voice = none)
    (hloc : findAzureLocale cfg.voicesData language = some loc)
    (hdiff : pyLower cfg.language ≠ pyLower language) :
    (resolveVoiceAndLanguage cfg language opts).1 =
      match (cfg.voicesData.filter (fun v => decide (v.locale = loc))).find?
          (fun v => decide (v.gender = "Female")) with
      | some v => v.shortName
      | none =>
        (((cfg.voicesData.filter (fun v => decide (v.locale = loc))).getLast?).map
          (fun v => v.shortName)).getD cfg.defaultVoice := by
  have hne : cfg.voicesData ≠ [] := by
    intro h
    rw [h] at hloc
    exact Option.noConfusion hloc
  show (match findAzureLocale cfg.voicesData language with
    | some l =>
      if cfg.voicesData ≠ [] ∧ opts.voice = none ∧
          pyLower cfg.language ≠ pyLower language then
        loopPick cfg.voicesData l (opts.voice.getD cfg.defaultVoice)
      else opts.voice.getD cfg.defaultVoice
    | none => opts.voice.getD cfg.defaultVoice) = _
  rw [hloc, hv]
  show (if cfg.voicesData ≠ [] ∧ (none : Option String) = none ∧
      pyLower cfg.language ≠ pyLower language then
    loopPick cfg.voicesData loc ((none : Option String).getD cfg.defaultVoice)
  else (none : Option String).getD cfg.defaultVoice) = _
  rw [if_pos ⟨hne, rfl, hdiff⟩]
  exact loopPick_eq _ _ _

/-- Witness for `c4_voice_fallback`: the spec example, a catalog with only
`it-IT` entries containing a female voice, requested language `it-it`, no
explicit voice, configured default locale `en-US`; the resolver picks the
female voice. -/
theorem c4_voice_fallback_witness :
    (resolveVoiceAndLanguage
      ⟨"en-US", "en-US-JennyNeural", "audio-24khz-96kbitrate-mono-mp3",
        [⟨"it-IT-DiegoNeural", "it-IT", "Male", "Diego"⟩,
         ⟨"it-IT-ElsaNeural", "it-IT", "Female", "Elsa"⟩],
        ⟨none, none, none, none, none, none⟩⟩
      "it-it" ⟨none, none, none, none, none, none, none⟩).1 =
      "it-IT-ElsaNeural" := by
  rw [c4_voice_fallback _ _ "it-IT" _ rfl (by decide) (by decide)]
  decide

/-- Counterexample to C4 as stated: with two male `it-IT` voices `A` then
`B` and no female voice, the claim predicts the first one (`A`); the code
overwrites on every match and returns the last one (`B`). -/
theorem c4_voice_fallback_cex :
    (resolveVoiceAndLanguage
      ⟨"en-US", "dv", "audio-24khz-96kbitrate-mono-mp3",
        [⟨"A", "it-IT", "Male", "A"⟩, ⟨"B", "it-IT", "Male", "B"⟩],
        ⟨none, none, none, none, none, none⟩⟩
      "it-it" ⟨none, none, none, none, none, none, none⟩).1 = "B" ∧
    ("B" : String) ≠ "A" := by decide

/-! ## Claim C5: streaming fault tolerance and ordering -/

theorem perSentenceAudio_nil (net : Nat → String → NetOutcome)
    (voice language : String) (p : Prosody) (k : Nat) :
    perSentenceAudio net voice language p k [] = [] := rfl

theorem perSentenceAudio_cons (net : Nat → String → NetOutcome)
    (voice language : String) (p : Prosody) (k : Nat) (s : List Char)
    (rest : List (List Char)) :
    perSentenceAudio net voice language p k (s :: rest) =
      audioOf (net k (buildSsml (String.mk s) voice language p)) ++
      perSentenceAudio net voice language p (k + 1) rest := rfl

theorem perSentenceAudio_append (net : Nat → String → NetOutcome)
    (voice language : String) (p : Prosody) :
    ∀ (xs ys : List (List Char)) (k : Nat),
    perSentenceAudio net voice language p k (xs ++ ys) =
      perSentenceAudio net voice language p k xs ++
      perSentenceAudio net voice language p (k + xs.length) ys
  | [], ys, k => by simp [perSentenceAudio_nil]
  | x :: xs, ys, k => by
    rw [List.cons_append, perSentenceAudio_cons, perSentenceAudio_cons,
      perSentenceAudio_append net voice language p xs ys (k + 1)]
    rw [List.append_assoc]
    have h : k + 1 + xs.length = k + (x :: xs).length := by
      simp only [List.length_cons]
      omega
    rw [h]

theorem innerLoop_zero (net : Nat → String → NetOutcome)
    (voice language : String) (p : Prosody) (k : Nat) (buf : List Char) :
    innerLoop net voice language p 0 k buf = ⟨[], k, buf, false⟩ := rfl

theorem innerLoop_succ (net : Nat → String → NetOutcome)
    (voice language : String) (p : Prosody) (f k : Nat) (buf : List Char) :
    innerLoop net voice language p (f + 1) k buf =
      match searchEnd buf with
      | none => ⟨[], k, buf, false⟩
      | some e =>
        if pyStrip (List.take e buf) = [] then
          innerLoop net voice language p f k (List.drop e buf)
        else
          match net k (buildSsml (String.mk (pyStrip (List.take e buf)))
              voice language p) with
          | .internalFault => ⟨[], k + 1, List.drop e buf, true⟩
          | .response status chunks =>
            let r := innerLoop net voice language p f (k + 1) (List.drop e buf)
            ⟨(if status = 200 then chunks else []) ++ r.audio, r.reqIdx,
              r.buffer, r.raised⟩
          | .clientError =>
            let r := innerLoop net voice language p f (k + 1) (List.drop e buf)
            ⟨r.audio, r.reqIdx, r.buffer, r.raised⟩ := rfl

theorem innerLoop_of_none {buf : List Char} (h : searchEnd buf = none)
    (net : Nat → String → NetOutcome) (voice language : String) (p : Prosody)
    (f k : Nat) :
    innerLoop net voice language p f k buf = ⟨[], k, buf, false⟩ := by
  cases f with
  | zero => rfl
  | succ f => rw [innerLoop_succ, h]

theorem innerLoop_some {buf : List Char} {e : Nat} (h : searchEnd buf = some e)
    (net : Nat → String → NetOutcome) (voice language : String) (p : Prosody)
    (f k : Nat) :
    innerLoop net voice language p (f + 1) k buf =
      (if pyStrip (List.take e buf) = [] then
        innerLoop net voice language p f k (List.drop e buf)
      else
        match net k (buildSsml (String.mk (pyStrip (List.take e buf)))
            voice language p) with
        | .internalFault => ⟨[], k + 1, List.drop e buf, true⟩
        | .response status chunks =>
          let r := innerLoop net voice language p f (k + 1) (List.drop e buf)
          ⟨(if status = 200 then chunks else []) ++ r.audio, r.reqIdx,
            r.buffer, r.raised⟩
        | .clientError =>
          let r := innerLoop net voice language p f (k + 1) (List.drop e buf)
          ⟨r.audio, r.reqIdx, r.buffer, r.raised⟩) := by
  rw [innerLoop_succ, h]

theorem innerLoop_eq (net : Nat → String → NetOutcome)
    (voice language : String) (p : Prosody)
    (hnf : ∀ i d, net i d ≠ NetOutcome.internalFault) :
    ∀ (fuel k : Nat) (buf : List Char),
    innerLoop net voice language p fuel k buf =
      ⟨perSentenceAudio net voice language p k (extractLoop fuel buf).1,
       k + (extractLoop fuel buf).1.length,
       (extractLoop fuel buf).2, false⟩
  | 0, k, buf => by
    rw [innerLoop_zero, extractLoop_zero]
    rfl
  | fuel + 1, k, buf => by
    cases hse : searchEnd buf with
    | none =>
      rw [innerLoop_of_none hse, extractLoop_of_none hse]
      rfl
    | some e =>
      rw [innerLoop_some hse, extractLoop_some hse]
      by_cases hs : pyStrip (List.take e buf) = []
      · rw [if_pos hs, if_pos hs]
        exact innerLoop_eq net voice language p hnf fuel k (List.drop e buf)
      · rw [if_neg hs, if_neg hs]
        cases hnet : net k (buildSsml (String.mk (pyStrip (List.take e buf)))
            voice language p) with
        | internalFault => exact absurd hnet (hnf _ _)
        | response status chunks =>
          rw [innerLoop_eq net voice language p hnf fuel (k + 1)
            (List.drop e buf)]
          refine (GenState.mk.injEq _ _ _ _ _ _ _ _).mpr ⟨?_, ?_, rfl, rfl⟩
          · rw [perSentenceAudio_cons, hnet]
            rfl
          · simp only [List.length_cons]
            omega
        | clientError =>
          rw [innerLoop_eq net voice language p hnf fuel (k + 1)
            (List.drop e buf)]
          refine (GenState.mk.injEq _ _ _ _ _ _ _ _).mpr ⟨?_, ?_, rfl, rfl⟩
          · rw [perSentenceAudio_cons, hnet]
            rfl
          · simp only [List.length_cons]
            omega

theorem outerLoop_nil (net : Nat → String → NetOutcome)
    (voice language : String) (p : Prosody) (k : Nat) (buf : List Char) :
    outerLoop net voice language p k buf [] = ⟨[], k, buf, false⟩ := rfl

theorem outerLoop_cons (net : Nat → String → NetOutcome)
    (voice language : String) (p : Prosody) (k : Nat) (buf chunk : List Char)
    (rest : List (List Char)) :
    outerLoop net voice language p k buf (chunk :: rest) =
      (let st := innerLoop net voice language p (buf ++ chunk).length k
        (buf ++ chunk)
       if st.raised then ⟨st.audio, st.reqIdx, st.buffer, true⟩
       else
         let st2 := outerLoop net voice language p st.reqIdx st.buffer rest
         ⟨st.audio ++ st2.audio, st2.reqIdx, st2.buffer, st2.raised⟩) := rfl

theorem outerLoop_cons_ok (net : Nat → String → NetOutcome)
    (voice language : String) (p : Prosody) (k : Nat) (buf chunk : List Char)
    (rest : List (List Char)) (a : List (List Nat)) (k2 : Nat) (b2 : List Char)
    (hst : innerLoop net voice language p (buf ++ chunk).length k
      (buf ++ chunk) = ⟨a, k2, b2, false⟩) :
    outerLoop net voice language p k buf (chunk :: rest) =
      ⟨a ++ (outerLoop net voice language p k2 b2 rest).audio,
       (outerLoop net voice language p k2 b2 rest).reqIdx,
       (outerLoop net voice language p k2 b2 rest).buffer,
       (outerLoop net voice language p k2 b2 rest).raised⟩ := by
  rw [outerLoop_cons, hst]
  rfl

theorem outerLoop_eq (net : Nat → String → NetOutcome)
    (voice language : String) (p : Prosody)
    (hnf : ∀ i d, net i d ≠ NetOutcome.internalFault) :
    ∀ (chunks : List (List Char)) (k : Nat) (buf : List Char),
    outerLoop net voice language p k buf chunks =
      ⟨perSentenceAudio net voice language p k (runFeeds buf chunks).1,
       k + (runFeeds buf chunks).1.length,
       (runFeeds buf chunks).2, false⟩
  | [], k, buf => by
    rw [outerLoop_nil, runFeeds_nil]
    rfl
  | chunk :: rest, k, buf => by
    have hfeed : extractLoop (buf ++ chunk).length (buf ++ chunk) =
        feed buf chunk := by
      unfold feed
      rw [List.length_append]
    have hst : innerLoop net voice language p (buf ++ chunk).length k
        (buf ++ chunk) =
        ⟨perSentenceAudio net voice language p k (feed buf chunk).1,
         k + (feed buf chunk).1.length, (feed buf chunk).2, false⟩ := by
      rw [innerLoop_eq net voice language p hnf, hfeed]
    rw [outerLoop_cons_ok net voice language p k buf chunk rest _ _ _ hst,
      runFeeds_cons]
    rw [outerLoop_eq net voice language p hnf rest
      (k + (feed buf chunk).1.length) (feed buf chunk).2]
    refine (GenState.mk.injEq _ _ _ _ _ _ _ _).mpr ⟨?_, ?_, rfl, rfl⟩
    · rw [perSentenceAudio_append]
    · simp only [List.length_append]
      omega

/-- **C5**.  In a streamed synthesis call with no unexpected internal error,
the generator terminates normally (no exception escapes) and emits exactly
the concatenation, in original sentence order, of the per-sentence audio:
each sentence contributes its response body chunks when the remote returned
status 200 and nothing when the remote returned a non-success status or the
transport faulted, so one failed sentence is omitted while the stream
continues in order.  An internal fault is the only outcome that can set the
raised flag, since with it excluded the flag is provably false. -/
theorem c5_stream_fault_tolerance (net : Nat → String → NetOutcome)
    (voice language : String) (p : Prosody) (chunks : List (List Char))
    (hnf : ∀ i d, net i d ≠ NetOutcome.internalFault) :
    dataGen net voice language p chunks =
      (perSentenceAudio net voice language p 0 (segment chunks), false) := by
  unfold dataGen
  rw [outerLoop_eq net voice language p hnf chunks 0 []]
  show (if pyStrip (runFeeds [] chunks).2 = [] then
      (perSentenceAudio net voice language p 0 (runFeeds [] chunks).1, false)
    else
      match net (0 + (runFeeds [] chunks).1.length)
          (buildSsml (String.mk (pyStrip (runFeeds [] chunks).2))
            voice language p) with
      | .internalFault =>
        (perSentenceAudio net voice language p 0 (runFeeds [] chunks).1, true)
      | .response status chunksOut =>
        (perSentenceAudio net voice language p 0 (runFeeds [] chunks).1 ++
          (if status = 200 then chunksOut else []), false)
      | .clientError =>
        (perSentenceAudio net voice language p 0 (runFeeds [] chunks).1,
          false)) = _
  unfold segment flushBuf
  by_cases hrem : pyStrip (runFeeds [] chunks).2 = []
  · rw [if_pos hrem, if_pos hrem, List.append_nil]
  · rw [if_neg hrem, if_neg hrem]
    rw [perSentenceAudio_append]
    cases hnet : net (0 + (runFeeds [] chunks).1.length)
        (buildSsml (String.mk (pyStrip (runFeeds [] chunks).2))
          voice language p) with
    | internalFault => exact absurd hnet (hnf _ _)
    | response status chunksOut =>
      show (perSentenceAudio net voice language p 0 (runFeeds [] chunks).1 ++
        (if status = 200 then chunksOut else []), false) = _
      rw [perSentenceAudio_cons, hnet, perSentenceAudio_nil]
      simp [audioOf]
    | clientError =>
      show (perSentenceAudio net voice language p 0 (runFeeds [] chunks).1,
        false) = _
      rw [perSentenceAudio_cons, hnet, perSentenceAudio_nil]
      simp [audioOf]

/-- Witness for `c5_stream_fault_tolerance`: three sentences, the remote
rejects the second one with status 500; the stream still emits the audio of
the first and third sentences, in order, and terminates normally. -/
theorem c5_stream_fault_tolerance_witness :
    dataGen (fun i _ => NetOutcome.response (if i = 1 then 500 else 200) [[i]])
      "v" "en-US"
      ⟨.vstr "0%", .vstr "default", .vstr "default", .vstr "", .vstr "1",
        .vstr ""⟩
      ["One. Two. Three.".data] = ([[0], [2]], false) := by
  rw [c5_stream_fault_tolerance _ _ _ _ _
    (fun i d h => NetOutcome.noConfusion h)]
  decide

/-! ## Claim C6: non-streaming failure result -/

/-- **C6**.  The non-streaming synthesis call, on any remote rejection (a
response whose status is not 200) or transport fault, returns the explicit
no-audio result `(none, none)` — absent container tag and absent bytes —
instead of raising. -/
theorem c6_nonstreaming_failure (cfg : TtsConfig) (message language : String)
    (opts : CallOptions) (r : FetchResult)
    (h : match r with | .response s _ => s ≠ 200 | .clientError => True) :
    asyncGetTtsAudio cfg message language opts (fun _ => r) = (none, none) := by
  cases r with
  | response s body =>
    show (if s ≠ 200 then ((none : Option String), (none : Option (List Nat)))
      else (some "mp3", some body)) = (none, none)
    exact if_pos h
  | clientError => rfl

/-- Witness for `c6_nonstreaming_failure` at a concrete 401 rejection. -/
theorem c6_nonstreaming_failure_witness :
    asyncGetTtsAudio
      ⟨"en-US", "en-US-JennyNeural", "audio-24khz-96kbitrate-mono-mp3", [],
        ⟨none, none, none, none, none, none⟩⟩
      "Hello" "en-US" ⟨none, none, none, none, none, none, none⟩
      (fun _ => FetchResult.response 401 []) = (none, none) :=
  c6_nonstreaming_failure _ _ _ _ _ (show (401 : Nat) ≠ 200 by decide)

/-! ## Claim C8: the fixed mp3 container tag -/

/-- **C8**.  For every configured output-format profile (every key of
`AUDIO_FORMATS`), both the non-streaming call on success and the streaming
call return the fixed `"mp3"` container tag, regardless of which encoding
profile is configured. -/
theorem c8_mp3_tag (cfg : TtsConfig) (message language : String)
    (opts : CallOptions) (net : Nat → String → NetOutcome)
    (chunks : List (List Char)) (body : List Nat)
    (hfmt : cfg.outputFormat ∈ audioFormats) :
    asyncGetTtsAudio cfg message language opts
      (fun _ => FetchResult.response 200 body) = (some "mp3", some body) ∧
    (asyncStreamTtsAudio cfg language opts net chunks).1 = "mp3" := by
  constructor
  · show (if (200 : Nat) ≠ 200 then ((none : Option String),
      (none : Option (List Nat))) else (some "mp3", some body)) =
      (some "mp3", some body)
    exact if_neg (by omega)
  · rfl

/-- Witness for `c8_mp3_tag` with a non-MP3 profile (OGG Opus) configured:
the declared container tag is still `"mp3"`. -/
theorem c8_mp3_tag_witness :
    asyncGetTtsAudio
      ⟨"en-US", "en-US-JennyNeural", "ogg-24khz-16bit-mono-opus", [],
        ⟨none, none, none, none, none, none⟩⟩
      "Hi" "en-US" ⟨none, none, none, none, none, none, none⟩
      (fun _ => FetchResult.response 200 [7]) = (some "mp3", some [7]) ∧
    (asyncStreamTtsAudio
      ⟨"en-US", "en-US-JennyNeural", "ogg-24khz-16bit-mono-opus", [],
        ⟨none, none, none, none, none, none⟩⟩
      "en-US" ⟨none, none, none, none, none, none, none⟩
      (fun _ _ => NetOutcome.clientError) []).1 = "mp3" :=
  c8_mp3_tag _ _ _ _ _ _ _ (by decide)

/-! ## Claim C7: SSML escaping -/

theorem xmlReplace_nil (c : Char) (t : List Char) : xmlReplace c t [] = [] := rfl

theorem xmlReplace_cons (c : Char) (t : List Char) (d : Char) (rest : List Char) :
    xmlReplace c t (d :: rest) =
      if d = c then t ++ xmlReplace c t rest
      else d :: xmlReplace c t rest := rfl

theorem xmlReplace_append (c : Char) (t : List Char) : ∀ (xs ys : List Char),
    xmlReplace c t (xs ++ ys) = xmlReplace c t xs ++ xmlReplace c t ys
  | [], _ => rfl
  | d :: xs, ys => by
    rw [List.cons_append, xmlReplace_cons, xmlReplace_cons]
    by_cases h : d = c
    · rw [if_pos h, if_pos h, xmlReplace_append c t xs ys, List.append_assoc]
    · rw [if_neg h, if_neg h, xmlReplace_append c t xs ys, List.cons_append]

theorem escapeText_cons (d : Char) (s : List Char) :
    escapeText (d :: s) = specEscapeChar d ++ escapeText s := by
  unfold escapeText saxEscape
  rw [xmlReplace_cons]
  by_cases h38 : d = Char.ofNat 38
  · rw [if_pos h38, xmlReplace_append, xmlReplace_append, xmlReplace_append]
    subst h38
    congr 1
  · rw [if_neg h38, xmlReplace_cons]
    by_cases h60 : d = Char.ofNat 60
    · rw [if_pos h60, xmlReplace_append, xmlReplace_append]
      subst h60
      congr 1
    · rw [if_neg h60, xmlReplace_cons]
      by_cases h62 : d = Char.ofNat 62
      · rw [if_pos h62, xmlReplace_append]
        subst h62
        congr 1
      · rw [if_neg h62, xmlReplace_cons]
        by_cases h34 : d = Char.ofNat 34
        · rw [if_pos h34]
          subst h34
          congr 1
        · rw [if_neg h34]
          rw [show specEscapeChar d = [d] from by
            simp [specEscapeChar, h38, h60, h62, h34]]
          rfl

theorem escapeText_eq_specEscape : ∀ (s : List Char), escapeText s = specEscape s
  | [] => rfl
  | d :: s => by
    rw [escapeText_cons, escapeText_eq_specEscape s]
    rfl

theorem specEscapeChar_no_raw (d c : Char) (hc : c ∈ specEscapeChar d) :
    c ≠ Char.ofNat 60 ∧ c ≠ Char.ofNat 62 ∧ c ≠ Char.ofNat 34 := by
  unfold specEscapeChar at hc
  split_ifs at hc with h38 h60 h62 h34
  · fin_cases hc <;> exact ⟨by decide, by decide, by decide⟩
  · fin_cases hc <;> exact ⟨by decide, by decide, by decide⟩
  · fin_cases hc <;> exact ⟨by decide, by decide, by decide⟩
  · fin_cases hc <;> exact ⟨by decide, by decide, by decide⟩
  · rcases List.mem_singleton.mp hc with rfl
    exact ⟨h60, h62, h34⟩

theorem escapeText_no_raw (s : List Char) (c : Char) (hc : c ∈ escapeText s) :
    c ≠ Char.ofNat 60 ∧ c ≠ Char.ofNat 62 ∧ c ≠ Char.ofNat 34 := by
  rw [escapeText_eq_specEscape] at hc
  unfold specEscape at hc
  rcases List.mem_flatten.mp hc with ⟨l, hl, hcl⟩
  rcases List.mem_map.mp hl with ⟨d, _, rfl⟩
  exact specEscapeChar_no_raw d c hcl

theorem buildSsml_decomp (message voice language : String) (p : Prosody) :
    buildSsml message voice language p =
      ssmlVoiceOpen voice language ++ ssmlStyleOpen p ++ ssmlProsodyOpen p ++
      String.mk (escapeText message.data) ++ ssmlCloseTags p := by
  by_cases hsty : pyTruthy p.style = true
  · simp only [buildSsml, ssmlVoiceOpen, ssmlStyleOpen, ssmlProsodyOpen,
      ssmlCloseTags, hsty, if_true, String.append_assoc]
  · have hsty0 : pyTruthy p.style = false := Bool.eq_false_iff.mpr hsty
    simp only [buildSsml, ssmlVoiceOpen, ssmlStyleOpen, ssmlProsodyOpen,
      ssmlCloseTags, hsty0, Bool.false_eq_true, if_false, String.append_assoc,
      String.append_empty, String.empty_append]

/-- **C7**.  The markup builder escapes every occurrence of the
XML-significant characters `&`, `<`, `>` and additionally every literal
double quote before embedding the text: the sequential replacements of the
code equal the character-by-character escaping that replaces each of the
four characters by its entity, the escaped text contains no raw `<`, `>` or
double-quote character, and the document is exactly the fixed markup around
the escaped text — a deterministic pure function of its inputs. -/
theorem c7_ssml_escaping :
    (∀ s : List Char, escapeText s = specEscape s) ∧
    (∀ (s : List Char) (c : Char), c ∈ escapeText s →
      c ≠ Char.ofNat 60 ∧ c ≠ Char.ofNat 62 ∧ c ≠ Char.ofNat 34) ∧
    (∀ (message voice language : String) (p : Prosody),
      buildSsml message voice language p =
        ssmlVoiceOpen voice language ++ ssmlStyleOpen p ++ ssmlProsodyOpen p ++
        String.mk (escapeText message.data) ++ ssmlCloseTags p) :=
  ⟨escapeText_eq_specEscape, escapeText_no_raw, buildSsml_decomp⟩

/-- Witness for `c7_ssml_escaping`: the letter `a` survives the escaping of
`"a<b"` and is none of the forbidden raw characters. -/
theorem c7_ssml_escaping_witness :
    Char.ofNat 97 ≠ Char.ofNat 60 ∧ Char.ofNat 97 ≠ Char.ofNat 62 ∧
    Char.ofNat 97 ≠ Char.ofNat 34 :=
  c7_ssml_escaping.2.1 "a<b".data (Char.ofNat 97) (by decide)

/-! ## Claim C9: non-string pitch passthrough -/

theorem prosody_pitch (opts : CallOptions) (cfgo : ConfigOptions) :
    (normalizeProsodyOptions opts cfgo).pitch =
      normalizePitch (getOption opts.pitch cfgo.pitch (.vstr "default")) := rfl

/-- **C9**.  Pitch validation only ever inspects string values: non-string
pitch values (ints, floats) pass through option normalization completely
unchanged, the replacement by `"default"` only ever applies to string-typed
values, and the generated markup interpolates the untouched pitch value into
the `pitch` attribute of the prosody element. -/
theorem c9_pitch_passthrough :
    (∀ q : ℚ, normalizePitch (.vfloat q) = .vfloat q) ∧
    (∀ n : ℤ, normalizePitch (.vint n) = .vint n) ∧
    (∀ v : PyVal, normalizePitch v ≠ v →
      ∃ s, v = .vstr s ∧ normalizePitch v = .vstr "default") ∧
    (∀ (opts : CallOptions) (cfgo : ConfigOptions) (v : PyVal),
      opts.pitch = some v → (∀ s, v ≠ .vstr s) →
      (normalizeProsodyOptions opts cfgo).pitch = v) ∧
    (∀ (message voice language : String) (p : Prosody),
      ∃ pre post : String,
        buildSsml message voice language p =
          pre ++ "pitch=\x27" ++ pyStr p.pitch ++ "\x27 " ++ post) := by
  refine ⟨fun _ => rfl, fun _ => rfl, ?_, ?_, ?_⟩
  · intro v hv
    match v with
    | .vstr s =>
      refine ⟨s, rfl, ?_⟩
      have hv2 : (if ¬ pyLower s ∈ validPitchNames ∧
          ¬ (pyEndsWith s "%" || pyEndsWith s "Hz") then PyVal.vstr "default"
        else PyVal.vstr s) ≠ PyVal.vstr s := hv
      show (if ¬ pyLower s ∈ validPitchNames ∧
          ¬ (pyEndsWith s "%" || pyEndsWith s "Hz") then PyVal.vstr "default"
        else PyVal.vstr s) = PyVal.vstr "default"
      by_cases hC : ¬ pyLower s ∈ validPitchNames ∧
          ¬ (pyEndsWith s "%" || pyEndsWith s "Hz")
      · rw [if_pos hC]
      · rw [if_neg hC] at hv2
        exact absurd rfl hv2
    | .vint n => exact absurd rfl hv
    | .vfloat q => exact absurd rfl hv
  · intro opts cfgo v hp hns
    rw [prosody_pitch, hp, getOption_some]
    match v with
    | .vstr s => exact absurd rfl (hns s)
    | .vint n => rfl
    | .vfloat q => rfl
  · intro message voice language p
    refine ⟨ssmlVoiceOpen voice language ++ ssmlStyleOpen p ++
      ("<prosody rate=\x27" ++ pyStr p.rate ++ "\x27 "),
      ("volume=\x27" ++ pyStr p.volume ++ "\x27>") ++
        String.mk (escapeText message.data) ++ ssmlCloseTags p, ?_⟩
    rw [buildSsml_decomp]
    unfold ssmlProsodyOpen
    simp only [String.append_assoc]

/-- Witness for `c9_pitch_passthrough`: the numeric pitch `7` passes through
normalization unchanged. -/
theorem c9_pitch_passthrough_witness :
    (normalizeProsodyOptions
      ⟨none, none, some (.vint 7), none, none, none, none⟩
      ⟨none, none, none, none, none, none⟩).pitch = PyVal.vint 7 :=
  c9_pitch_passthrough.2.2.2.1 _ _ _ rfl (fun s h => PyVal.noConfusion h)

/-! ## Claim C10: falsy style degree -/

theorem prosody_styleDegree (opts : CallOptions) (cfgo : ConfigOptions) :
    (normalizeProsodyOptions opts cfgo).styleDegree =
      normalizeStyleDegree (getOption opts.styleDegree cfgo.styleDegree
        (.vstr "1")) := rfl

/-- **C10**.  For every falsy style-degree value (the empty string, the int
`0`, the float `0.0`), option normalization skips the parse and range check
entirely and passes the value through unchanged; and in the generated
markup the `styledegree` attribute is omitted even when an expressive style
is set. -/
theorem c10_falsy_styledegree (v : PyVal) (hv : pyTruthy v = false) :
    normalizeStyleDegree v = v ∧
    (∀ (opts : CallOptions) (cfgo : ConfigOptions), opts.styleDegree = some v →
      (normalizeProsodyOptions opts cfgo).styleDegree = v) ∧
    (∀ (message voice language : String) (p : Prosody),
      p.styleDegree = v → pyTruthy p.style = true →
      buildSsml message voice language p =
        ssmlVoiceOpen voice language ++
        ("<mstts:express-as style=\x27" ++ pyStr p.style ++ "\x27" ++
          (if pyTruthy p.role then " role=\x27" ++ pyStr p.role ++ "\x27"
            else "") ++ ">") ++
        ssmlProsodyOpen p ++ String.mk (escapeText message.data) ++
        ("</prosody>" ++ "</mstts:express-as>" ++ "</voice></speak>")) := by
  have hnorm : normalizeStyleDegree v = v := by
    unfold normalizeStyleDegree
    rw [hv]
    simp
  refine ⟨hnorm, ?_, ?_⟩
  · intro opts cfgo hsd
    rw [prosody_styleDegree, hsd, getOption_some, hnorm]
  · intro message voice language p hsd hsty
    have hfd : pyTruthy p.styleDegree = false := by rw [hsd]; exact hv
    rw [buildSsml_decomp]
    unfold ssmlStyleOpen ssmlCloseTags
    simp only [hsty, hfd, Bool.false_eq_true, if_true, if_false,
      String.append_assoc, String.append_empty, String.empty_append]

/-- Witness for `c10_falsy_styledegree`: the falsy style degree `0` is
passed through normalization unchanged. -/
theorem c10_falsy_styledegree_witness :
    pyTruthy (PyVal.vint 0) = false ∧
    normalizeStyleDegree (PyVal.vint 0) = PyVal.vint 0 :=
  ⟨by decide, (c10_falsy_styledegree (PyVal.vint 0) (by decide)).1⟩

end MsTts
